import Mathlib

/-!
Verification of the Overviewer row reconciliation and enrichment pipeline.

JavaScript strings are modelled as `List Char`; `undefined`-able values as
`Option`; throwing async calls as `Except`-valued functions supplied as
parameters.  Every definition mirrors a function of the source:

* `normalizeUrl`            — `normalizeUrl` in src/lib/url-normalizer.ts
                              (textually identical to `normalizeUrlInternal`
                              in functions/src/index.ts)
* `checkForExistingCompanies` — functions/src/index.ts, the callable of the
                              same name, made pure over an explicit store
* `extractCompanies`, `mkTableRow`, `processFileCore`
                            — `processFile` in src/app/page.tsx
* `processRow`, `enrich`    — `handleAutoProcess` in src/app/page.tsx
* `handleExportResults`     — `handleExportResults` in src/app/page.tsx
-/

namespace Overviewer

/-- A JavaScript string, modelled as its list of characters. -/
abbrev JStr := List Char

/-- The whitespace characters recognised by `String.prototype.trim`
(ASCII fragment, which covers all inputs considered here). -/
def isJsWs (c : Char) : Bool :=
  c = ' ' ∨ c = '\t' ∨ c = '\n' ∨ c = '\r' ∨ c = '\x0b' ∨ c = '\x0c'

/-- `s.trim()`: drop leading and trailing whitespace. -/
def trimL (s : JStr) : JStr :=
  ((s.dropWhile isJsWs).reverse.dropWhile isJsWs).reverse

/-- `c.toLowerCase()` on a single character (ASCII letters; all other
characters are unchanged, as for the inputs considered here). -/
def jsLowerChar (c : Char) : Char :=
  if 'A' ≤ c ∧ c ≤ 'Z' then Char.ofNat (c.toNat + 32) else c

/-- `s.toLowerCase()`. -/
def toLowerL (s : JStr) : JStr := s.map jsLowerChar

/-- `s.startsWith(p)`. -/
def startsWithL (p s : JStr) : Bool := p.isPrefixOf s

/-- JS truthiness of a `string | undefined` value: `undefined` and the
empty string are falsy, every other string is truthy. -/
def jsTruthy (o : Option JStr) : Bool :=
  match o with
  | none => false
  | some s => ¬ s.isEmpty

/-- `String(x)` on a possibly-undefined string cell. -/
def jsStringOfCell (o : Option JStr) : JStr :=
  match o with
  | some s => s
  | none => "undefined".data

/-- Characters the WHATWG URL parser removes anywhere in its input. -/
def isUrlTabOrNewline (c : Char) : Bool :=
  c = '\t' ∨ c = '\n' ∨ c = '\r'

/-- C0 controls and space, stripped from both ends by the URL parser. -/
def isC0OrSpace (c : Char) : Bool := c.toNat ≤ 0x20

/-- Input preprocessing performed by `new URL(...)`: strip leading and
trailing C0-control-or-space characters, remove tabs and newlines. -/
def urlPreprocess (s : JStr) : JStr :=
  (((s.dropWhile isC0OrSpace).reverse.dropWhile isC0OrSpace).reverse).filter
    (fun c => ¬ isUrlTabOrNewline c)

/-- Forbidden host code points (WHATWG URL standard), restricted to the
characters that can actually occur here. -/
def isForbiddenHostChar (c : Char) : Bool :=
  c.toNat ≤ 0x20 ∨ c = '#' ∨ c = '/' ∨ c = '<' ∨ c = '>' ∨ c = '?' ∨
  c = '@' ∨ c = '[' ∨ c = '\\' ∨ c = ']' ∨ c = '^' ∨ c = '|'

/-- Validity of the authority part `host[:port]` of an http(s) URL:
nonempty host without forbidden host characters, digits-only port. -/
def validAuthority (a : JStr) : Bool :=
  let host := a.takeWhile (fun c => c ≠ ':')
  let port := (a.dropWhile (fun c => c ≠ ':')).drop 1
  ¬ host.isEmpty ∧ host.all (fun c => ¬ isForbiddenHostChar c) ∧
    port.all Char.isDigit

/-- Model of `new URL(s)` succeeding, for the strings the normalizer can
produce (absolute http/https URLs): after WHATWG preprocessing the string
must carry an `http://`/`https://` scheme followed by a valid authority;
everything after the authority is accepted (the constructor
percent-encodes it). -/
def urlCtorOk (s : JStr) : Bool :=
  let t := urlPreprocess s
  if startsWithL ("http://".data) t then
    validAuthority ((t.drop 7).takeWhile (fun c => c ≠ '/' ∧ c ≠ '?' ∧ c ≠ '#'))
  else if startsWithL ("https://".data) t then
    validAuthority ((t.drop 8).takeWhile (fun c => c ≠ '/' ∧ c ≠ '?' ∧ c ≠ '#'))
  else
    false

/-- The candidate string built by `normalizeUrl` before the `new URL`
validation: trim, lowercase, strip exactly one trailing `/`, prepend
`https://` when no `http://`/`https://` scheme is present. -/
def normCore (s : JStr) : JStr :=
  let n1 := toLowerL (trimL s)
  let n2 := if n1.getLast? = some '/' then n1.dropLast else n1
  if startsWithL ("http://".data) n2 ∨ startsWithL ("https://".data) n2 then n2
  else ("https://".data) ++ n2

/-- `normalizeUrl` from src/lib/url-normalizer.ts (and, identically,
`normalizeUrlInternal` from functions/src/index.ts): reject
undefined/blank input, build the normalized candidate (`normCore`) and
validate it with `new URL` (modelled by `urlCtorOk`). -/
def normalizeUrl (url : Option JStr) : Option JStr :=
  match url with
  | none => none
  | some s =>
    if s.isEmpty ∨ (trimL s).isEmpty then none
    else if urlCtorOk (normCore s) then some (normCore s) else none

/-- Index-passing map, used for `rows.map((row, index) => ...)`. -/
def mapIdxL (f : Nat → α → β) : Nat → List α → List β
  | _, [] => []
  | i, a :: as => f i a :: mapIdxL f (i + 1) as

/-! ## Data model (src/lib/firebase.ts interfaces and page.tsx rows) -/

/-- `CompanyInput`: one identity record per spreadsheet row. -/
structure CompanyInput where
  originalIndex : Nat
  companyName : Option JStr
  country : Option JStr
  website : Option JStr
deriving DecidableEq

/-- `CompanyMetadata` carried by a persisted match. -/
structure CompanyMetadata where
  summary : Option JStr
  independenceCriteria : Option JStr
  insufficientInformation : Option JStr
deriving DecidableEq

/-- `CompanyMatchResult` returned per identity by the reconciliation call. -/
structure CompanyMatchResult where
  originalIndex : Nat
  matched : Bool
  metadata : Option CompanyMetadata
  error : Option JStr
deriving DecidableEq

/-- The two processing states of a table row. -/
inductive ProcessingStatus
  | Fetched
  | ToProcess
deriving DecidableEq

/-- `TableDataRow`: the working unit of the UI/export layer. -/
structure TableDataRow where
  id : JStr
  values : List JStr
  hasError : Bool
  processingStatus : ProcessingStatus
  summary : Option JStr
  independenceCriteria : Option JStr
  insufficientInformation : Option JStr
deriving DecidableEq

/-- `DetectHeadersOutput`: mapped header per semantic field, empty string
meaning "not detected". -/
structure DetectHeadersOutput where
  companyName : JStr
  country : JStr
  website : JStr
deriving DecidableEq

/-! ## Row extraction and table construction (`processFile`, page.tsx) -/

/-- `h ? rawHeaders.indexOf(h) : -1`; the `-1` sentinel (empty mapped
header, or header not found) is modelled as `none`. -/
def headerIdx (headers : List JStr) (h : JStr) : Option Nat :=
  if h.isEmpty then none else headers.findIdx? (fun x => x = h)

/-- `idx !== -1 && row[idx] ? String(row[idx]).trim() : undefined`
(page.tsx lines 78-80 and 109-110): a missing column, missing cell or
empty-string cell gives `undefined`; any other cell is trimmed. -/
def extractField (row : List JStr) (idx : Option Nat) : Option JStr :=
  match idx with
  | none => none
  | some i =>
    match row.get? i with
    | none => none
    | some c => if c.isEmpty then none else some (trimL c)

/-- The `companiesToCheck` construction (page.tsx lines 77-88). -/
def extractCompanies (nameIdx countryIdx websiteIdx : Option Nat)
    (rows : List (List JStr)) : List CompanyInput :=
  mapIdxL (fun index row =>
    { originalIndex := index
      companyName := extractField row nameIdx
      country := extractField row countryIdx
      website := extractField row websiteIdx }) 0 rows

/-- `new Map(results.map(r => [r.originalIndex, r])).get(k)`: for
duplicate keys the LAST entry wins, as for a JS `Map`. -/
def jsMapGet (l : List CompanyMatchResult) (k : Nat) : Option CompanyMatchResult :=
  l.reverse.find? (fun r => r.originalIndex = k)

/-- One entry of `tableData` (page.tsx lines 108-138): display values with
the website cell replaced by its normalized form when that differs from
the trimmed lowercased raw cell, the `hasError` flag, the processing
status decided by the reconciliation result for this row index, and the
metadata of a persisted match. -/
def mkTableRow (nameIdx websiteIdx : Option Nat)
    (results : List CompanyMatchResult) (index : Nat) (row : List JStr) :
    TableDataRow :=
  let companyNameVal := extractField row nameIdx
  let websiteVal := extractField row websiteIdx
  let normalizedWebsite := normalizeUrl websiteVal
  let displayRowValues :=
    match websiteIdx with
    | some wi =>
      match normalizedWebsite with
      | some nw =>
        if ¬ nw.isEmpty ∧ nw ≠ toLowerL (trimL (jsStringOfCell (row.get? wi)))
        then row.set wi nw else row
      | none => row
    | none => row
  let matchInfo := jsMapGet results index
  let metadata := matchInfo.bind (fun r => r.metadata)
  { id := ("row-" ++ Nat.repr index).data
    values := displayRowValues
    hasError := (!jsTruthy companyNameVal) || (!jsTruthy normalizedWebsite)
    processingStatus :=
      match matchInfo with
      | some r => if r.matched then ProcessingStatus.Fetched else ProcessingStatus.ToProcess
      | none => ProcessingStatus.ToProcess
    summary := metadata.bind (fun m => m.summary)
    independenceCriteria := metadata.bind (fun m => m.independenceCriteria)
    insufficientInformation := metadata.bind (fun m => m.insufficientInformation) }

/-- Result of a successful `processFile` run: the table and the number of
"Database Check Error" warning toasts that were emitted. -/
structure ProcessedCore where
  tableData : List TableDataRow
  warnings : Nat
deriving DecidableEq

/-- The data path of `processFile` (page.tsx lines 57-146), with the
batched reconciliation call's outcome supplied as an `Except` parameter:
headerless files abort; a throwing reconciliation call degrades to
all-`matched=false` fallback results and one warning toast. -/
def processFileCore (rawHeaders : List JStr) (rawDataRows : List (List JStr))
    (detectedHeaders : DetectHeadersOutput)
    (reconcileOutcome : Except JStr (List CompanyMatchResult)) :
    Except JStr ProcessedCore :=
  if rawHeaders.isEmpty then
    .error ("The uploaded file seems to be empty or missing a valid header row.".data)
  else
    let companyNameHeaderIdx := headerIdx rawHeaders detectedHeaders.companyName
    let countryHeaderIdx := headerIdx rawHeaders detectedHeaders.country
    let websiteHeaderIdx := headerIdx rawHeaders detectedHeaders.website
    let companiesToCheck :=
      extractCompanies companyNameHeaderIdx countryHeaderIdx websiteHeaderIdx rawDataRows
    let callOutcome : List CompanyMatchResult × Nat :=
      if companiesToCheck.length > 0 then
        match reconcileOutcome with
        | .ok r => (r, 0)
        | .error _ =>
          (companiesToCheck.map (fun c =>
            { originalIndex := c.originalIndex, matched := false
              metadata := none, error := none }), 1)
      else ([], 0)
    let tableData := mapIdxL (fun index row =>
      mkTableRow companyNameHeaderIdx websiteHeaderIdx callOutcome.1 index row) 0 rawDataRows
    .ok { tableData := tableData, warnings := callOutcome.2 }

/-! ## Enrichment orchestrator (`handleAutoProcess`, page.tsx) -/

/-- Shape of the scrape service's result. -/
structure ScrapeResult where
  status : JStr
  content : Option JStr
  message : Option JStr
  reason : Option JStr
deriving DecidableEq

/-- Shape of the summarize service's result. -/
structure SummarizeResult where
  status : JStr
  summary : Option JStr
  independenceCriteria : Option JStr
  insufficientInformation : Option JStr
  message : Option JStr
deriving DecidableEq

/-- `SaveCompanyEntryData` passed to the persist service. -/
structure SaveCompanyEntryData where
  companyName : Option JStr
  country : Option JStr
  website : Option JStr
  metadata : CompanyMetadata
deriving DecidableEq

/-- The external services and header indices `handleAutoProcess` works
with; a throwing call is an `.error` result. -/
structure EnrichEnv where
  scrape : JStr → Except JStr ScrapeResult
  summarize : JStr → Except JStr SummarizeResult
  save : SaveCompanyEntryData → Except JStr Bool
  companyNameHeaderIdx : Option Nat
  countryHeaderIdx : Option Nat
  websiteHeaderIdx : Option Nat

/-- Whether a row incremented `successCount` or `errorCount`. -/
inductive RowTally
  | success
  | error
deriving DecidableEq

/-- `idx !== -1 ? row.values[idx] : undefined` (no trimming, no
truthiness check — exactly as in `handleAutoProcess`). -/
def cellAt (values : List JStr) (idx : Option Nat) : Option JStr :=
  match idx with
  | some i => values.get? i
  | none => none

/-- One row's pass through `handleAutoProcess` (page.tsx lines 259-328):
ineligible rows pass through uncounted; a missing website, a throwing or
unsuccessful scrape, and a throwing or unsuccessful summarize each leave
the row unchanged and count an error; on scrape+summarize success the
persist call is attempted with its outcome ignored (a throw is only
logged) and the row transitions to `Fetched` carrying the summarize
result, counting a success. -/
def processRow (env : EnrichEnv) (row : TableDataRow) :
    TableDataRow × Option RowTally :=
  if ¬ (row.processingStatus = ProcessingStatus.ToProcess) ∨ row.hasError then
    (row, none)
  else
    match cellAt row.values env.websiteHeaderIdx with
    | none => (row, some RowTally.error)
    | some website =>
      if website.isEmpty then (row, some RowTally.error)
      else
        match env.scrape website with
        | .error _ => (row, some RowTally.error)
        | .ok scrapeResult =>
          if ¬ (scrapeResult.status = "success".data) then (row, some RowTally.error)
          else
            match scrapeResult.content with
            | none => (row, some RowTally.error)
            | some content =>
              if content.isEmpty then (row, some RowTally.error)
              else
                match env.summarize content with
                | .error _ => (row, some RowTally.error)
                | .ok summarizeResult =>
                  if ¬ (summarizeResult.status = "success".data) then
                    (row, some RowTally.error)
                  else
                    match summarizeResult.summary with
                    | none => (row, some RowTally.error)
                    | some summ =>
                      if summ.isEmpty then (row, some RowTally.error)
                      else
                        let companyDataForSave : SaveCompanyEntryData :=
                          { companyName := cellAt row.values env.companyNameHeaderIdx
                            country := cellAt row.values env.countryHeaderIdx
                            website := some website
                            metadata :=
                              { summary := summarizeResult.summary
                                independenceCriteria := summarizeResult.independenceCriteria
                                insufficientInformation := summarizeResult.insufficientInformation } }
                        let _saved := env.save companyDataForSave
                        ({ row with
                            summary := summarizeResult.summary
                            independenceCriteria := summarizeResult.independenceCriteria
                            insufficientInformation := summarizeResult.insufficientInformation
                            processingStatus := ProcessingStatus.Fetched },
                          some RowTally.success)

/-- Aggregate result of `handleAutoProcess`. -/
structure EnrichOutcome where
  rows : List TableDataRow
  successCount : Nat
  errorCount : Nat
deriving DecidableEq

/-- The whole-table pass of `handleAutoProcess`: every row is processed
independently (`Promise.all` over one promise per row) and the success
and error counter increments are totalled. -/
def enrich (env : EnrichEnv) (tableData : List TableDataRow) : EnrichOutcome :=
  let processed := tableData.map (processRow env)
  { rows := processed.map Prod.fst
    successCount := (processed.filter (fun p => p.2 = some RowTally.success)).length
    errorCount := (processed.filter (fun p => p.2 = some RowTally.error)).length }

/-! ## Export projection (`handleExportResults`, page.tsx) -/

/-- One flat record of the exported sheet. -/
structure ExportRecord where
  sNo : Nat
  companyName : JStr
  country : JStr
  website : JStr
  overview : JStr
  independenceCriteria : JStr
  insufficientInformation : JStr
deriving DecidableEq

/-- `idx !== -1 ? (row.values[idx] || '') : ''`. -/
def exportCell (values : List JStr) (idx : Option Nat) : JStr :=
  match idx with
  | some i =>
    match values.get? i with
    | some s => s
    | none => []
  | none => []

/-- `x || ''` on an optional string. -/
def orEmptyStr (o : Option JStr) : JStr :=
  match o with
  | some s => s
  | none => []

/-- Outcome of `handleExportResults`: either the nothing-to-export toast
(no file written, no error) or the records serialized into the sheet. -/
inductive ExportOutcome
  | nothingToExport
  | exported (records : List ExportRecord)
deriving DecidableEq

/-- The data path of `handleExportResults` (page.tsx lines 180-216):
rows with `hasError` are filtered out, the survivors are projected to
flat records with a recomputed 1-based sequence number, and an empty
projection short-circuits to the nothing-to-export outcome. -/
def handleExportResults (originalHeaders : List JStr)
    (mappedHeaders : DetectHeadersOutput) (tableData : List TableDataRow) :
    ExportOutcome :=
  let companyNameIdx := headerIdx originalHeaders mappedHeaders.companyName
  let countryIdx := headerIdx originalHeaders mappedHeaders.country
  let websiteIdx := headerIdx originalHeaders mappedHeaders.website
  let exportableData := mapIdxL (fun index row =>
    { sNo := index + 1
      companyName := exportCell row.values companyNameIdx
      country := exportCell row.values countryIdx
      website := exportCell row.values websiteIdx
      overview := orEmptyStr row.summary
      independenceCriteria := orEmptyStr row.independenceCriteria
      insufficientInformation := orEmptyStr row.insufficientInformation }) 0
    (tableData.filter (fun row => !row.hasError))
  if exportableData.isEmpty then ExportOutcome.nothingToExport
  else ExportOutcome.exported exportableData

/-! ## Remote matching (`checkForExistingCompanies`, functions/src/index.ts) -/

/-- A persisted document of the `companies` collection, as read by the
three Firestore queries: normalized fields, creation timestamp and
metadata.  `docId` is the Firestore document id. -/
structure StoredCompany where
  docId : JStr
  normalizedCompanyName : Option JStr
  normalizedCountry : Option JStr
  website : Option JStr
  timestamp : Int
  metadata : Option CompanyMetadata
deriving DecidableEq

/-- `company.companyName ? company.companyName.trim().toLowerCase() : null`. -/
def normNameOf (c : CompanyInput) : Option JStr :=
  match c.companyName with
  | some s => if s.isEmpty then none else some (toLowerL (trimL s))
  | none => none

/-- `company.country ? company.country.trim().toLowerCase() : null`. -/
def normCountryOf (c : CompanyInput) : Option JStr :=
  match c.country with
  | some s => if s.isEmpty then none else some (toLowerL (trimL s))
  | none => none

/-- `company.website ? normalizeUrlInternal(company.website) : null`. -/
def normWebsiteOf (c : CompanyInput) : Option JStr :=
  match c.website with
  | some s => if s.isEmpty then none else normalizeUrl (some s)
  | none => none

/-- The per-candidate vote of the matching loop: how many of the usable
(truthy) normalized query fields agree with the persisted document. -/
def matchCount (normName normCountry normWebsite : Option JStr)
    (r : StoredCompany) : Nat :=
  (if jsTruthy normName ∧ r.normalizedCompanyName = normName then 1 else 0) +
  (if jsTruthy normCountry ∧ r.normalizedCountry = normCountry then 1 else 0) +
  (if jsTruthy normWebsite ∧ r.website = normWebsite then 1 else 0)

/-- Insertion into the candidate map keyed by document id.  `Map.set`
overwrites, but within one snapshot union equal ids carry equal data, so
first-wins insertion is equivalent. -/
def insertById (acc : List StoredCompany) (r : StoredCompany) : List StoredCompany :=
  if acc.any (fun x => x.docId = r.docId) then acc else acc ++ [r]

/-- `potentialDocsFromQueries`: all documents returned by the issued
queries, deduplicated by document id. -/
def collectCandidates (queries : List (List StoredCompany)) : List StoredCompany :=
  queries.flatten.foldl insertById []

/-- The body of the `for (const company of companies)` loop of
`checkForExistingCompanies` (functions/src/index.ts lines 68-130), made
pure over a store value `db` and the six-months-ago cutoff: normalize the
query fields; no usable field short-circuits to no match; otherwise one
equality query per usable field (each restricted to documents no older
than the cutoff) is issued, the returned documents are pooled by id, and
the first candidate agreeing on at least 2 fields is the match. -/
def checkOneCompany (db : List StoredCompany) (sixMonthsAgo : Int)
    (company : CompanyInput) : CompanyMatchResult :=
  let normName := normNameOf company
  let normCountry := normCountryOf company
  let normWebsite := normWebsiteOf company
  if ¬ jsTruthy normName ∧ ¬ jsTruthy normCountry ∧ ¬ jsTruthy normWebsite then
    { originalIndex := company.originalIndex, matched := false
      metadata := none, error := none }
  else
    let queries : List (List StoredCompany) :=
      (if jsTruthy normName then
        [db.filter (fun r =>
          r.normalizedCompanyName = normName ∧ sixMonthsAgo ≤ r.timestamp)]
       else []) ++
      (if jsTruthy normCountry then
        [db.filter (fun r =>
          r.normalizedCountry = normCountry ∧ sixMonthsAgo ≤ r.timestamp)]
       else []) ++
      (if jsTruthy normWebsite then
        [db.filter (fun r =>
          r.website = normWebsite ∧ sixMonthsAgo ≤ r.timestamp)]
       else [])
    if queries.isEmpty then
      { originalIndex := company.originalIndex, matched := false
        metadata := none, error := none }
    else
      let candidates := collectCandidates queries
      let foundMatch := candidates.find? (fun r =>
        2 ≤ matchCount normName normCountry normWebsite r)
      { originalIndex := company.originalIndex
        matched := foundMatch.isSome
        metadata := foundMatch.bind (fun r => r.metadata)
        error := none }

/-- `checkForExistingCompanies`: one result per identity, in batch order. -/
def checkForExistingCompanies (db : List StoredCompany) (sixMonthsAgo : Int)
    (companies : List CompanyInput) : List CompanyMatchResult :=
  companies.map (checkOneCompany db sixMonthsAgo)

/-! ## Concrete fixtures used by witnesses and test scenarios -/

/-- `row.processingStatus === 'To Process' && !row.hasError`: eligibility
for enrichment. -/
def eligibleRow (row : TableDataRow) : Bool :=
  decide (row.processingStatus = ProcessingStatus.ToProcess) && !row.hasError

/-- An eligible single-column row whose only cell is a website value. -/
def sampleRow (i : Nat) (w : JStr) : TableDataRow :=
  { id := ("row-" ++ Nat.repr i).data
    values := [w]
    hasError := false
    processingStatus := ProcessingStatus.ToProcess
    summary := none
    independenceCriteria := none
    insufficientInformation := none }

/-- The three eligible rows of the spec's orchestrator scenario. -/
def scenarioRows : List TableDataRow :=
  [sampleRow 0 ("https://one.com".data),
   sampleRow 1 ("https://two.com".data),
   sampleRow 2 ("https://three.com".data)]

/-- Services for the scenario: scraping fails for the second row's
website only; summarize and persist always succeed. -/
def scenarioEnv : EnrichEnv :=
  { scrape := fun u =>
      if u = "https://two.com".data then
        .ok { status := "error".data, content := none
              message := some ("fetch failed".data), reason := none }
      else
        .ok { status := "success".data, content := some ("site content".data)
              message := none, reason := none }
    summarize := fun _ =>
      .ok { status := "success".data, summary := some ("a summary".data)
            independenceCriteria := some ("meets criteria".data)
            insufficientInformation := some ("No".data), message := none }
    save := fun _ => .ok true
    companyNameHeaderIdx := none
    countryHeaderIdx := none
    websiteHeaderIdx := some 0 }

/-- Same services, except that the persist call always throws. -/
def savingFailsEnv : EnrichEnv :=
  { scenarioEnv with save := fun _ => .error ("save failed".data) }

/-- A one-document store: a persisted "acme"/"us" record with a website
different from the query's. -/
def acmeDb : List StoredCompany :=
  [{ docId := "d1".data
     normalizedCompanyName := some ("acme".data)
     normalizedCountry := some ("us".data)
     website := some ("https://other.com".data)
     timestamp := 10
     metadata := some { summary := some ("a ten-word overview".data)
                        independenceCriteria := none
                        insufficientInformation := none } }]

/-- The spec's example query identity: Acme / US / https://acme.com. -/
def acmeQuery : CompanyInput :=
  { originalIndex := 0
    companyName := some ("Acme".data)
    country := some ("US".data)
    website := some ("https://acme.com".data) }

/-! ## List-level helper lemmas -/

lemma mapIdxL_get? (f : Nat → α → β) (n : Nat) (l : List α) (i : Nat) :
    (mapIdxL f n l).get? i = (l.get? i).map (fun a => f (n + i) a) := by
  induction l generalizing n i with
  | nil => simp [mapIdxL]
  | cons a t ih =>
    cases i with
    | zero => simp [mapIdxL]
    | succ j =>
      simp only [mapIdxL, List.get?_cons_succ, ih (n + 1) j]
      have harith : n + 1 + j = n + (j + 1) := by omega
      rw [harith]

lemma mapIdxL_length (f : Nat → α → β) (n : Nat) (l : List α) :
    (mapIdxL f n l).length = l.length := by
  induction l generalizing n with
  | nil => rfl
  | cons a t ih => simp [mapIdxL, ih]

/-! ## String-level lemmas for the website normalizer -/

lemma char_toNat_ofNat (n : Nat) (h : n.isValidChar) : (Char.ofNat n).toNat = n := by
  unfold Char.ofNat
  rw [dif_pos h]
  rfl

lemma jsLowerChar_idem (c : Char) : jsLowerChar (jsLowerChar c) = jsLowerChar c := by
  unfold jsLowerChar
  by_cases h : 'A' ≤ c ∧ c ≤ 'Z'
  · rw [if_pos h]
    have h90 : c.toNat ≤ 90 := by
      have hz := h.2
      rw [Char.le_def] at hz
      exact hz
    have hval : (c.toNat + 32).isValidChar := by left; omega
    have htn : (Char.ofNat (c.toNat + 32)).toNat = c.toNat + 32 :=
      char_toNat_ofNat _ hval
    rw [if_neg]
    intro hcon
    have hc2 : (Char.ofNat (c.toNat + 32)).toNat ≤ 90 := by
      have hz := hcon.2
      rw [Char.le_def] at hz
      exact hz
    have h65 : 65 ≤ c.toNat := by
      have hz := h.1
      rw [Char.le_def] at hz
      exact hz
    omega
  · rw [if_neg h, if_neg h]

lemma mem_toLowerL_fixed {c : Char} {s : JStr} (h : c ∈ toLowerL s) :
    jsLowerChar c = c := by
  unfold toLowerL at h
  obtain ⟨a, _, rfl⟩ := List.mem_map.mp h
  exact jsLowerChar_idem a

lemma toLowerL_eq_self {s : JStr} (h : ∀ c ∈ s, jsLowerChar c = c) :
    toLowerL s = s := by
  unfold toLowerL
  induction s with
  | nil => rfl
  | cons a t ih =>
    simp only [List.map_cons, List.cons.injEq]
    exact ⟨h a (List.mem_cons_self a t), ih (fun c hc => h c (List.mem_cons_of_mem a hc))⟩

lemma dropWhile_eq_self_of_head {p : Char → Bool} {l : JStr}
    (h : ∀ c, l.head? = some c → p c = false) : l.dropWhile p = l := by
  cases l with
  | nil => rfl
  | cons a t =>
    rw [List.dropWhile_cons, if_neg]
    simp [h a rfl]

lemma trimL_eq_self {l : JStr}
    (hh : ∀ c, l.head? = some c → isJsWs c = false)
    (hl : ∀ c, l.getLast? = some c → isJsWs c = false) : trimL l = l := by
  unfold trimL
  rw [dropWhile_eq_self_of_head hh]
  rw [dropWhile_eq_self_of_head (by
    intro c hc
    rw [List.head?_reverse] at hc
    exact hl c hc)]
  exact List.reverse_reverse l

lemma head?_of_startsWith {p l : JStr} {c : Char} (hp : p.head? = some c)
    (h : startsWithL p l = true) : l.head? = some c := by
  unfold startsWithL at h
  rw [List.isPrefixOf_iff_prefix] at h
  obtain ⟨t, rfl⟩ := h
  cases p with
  | nil => simp at hp
  | cons a q => simpa using hp

lemma normCore_scheme (s : JStr) :
    startsWithL ("http://".data) (normCore s) = true ∨
    startsWithL ("https://".data) (normCore s) = true := by
  simp only [normCore]
  by_cases hsch : startsWithL ("http://".data)
      (if (toLowerL (trimL s)).getLast? = some '/' then (toLowerL (trimL s)).dropLast
       else toLowerL (trimL s)) = true ∨
      startsWithL ("https://".data)
      (if (toLowerL (trimL s)).getLast? = some '/' then (toLowerL (trimL s)).dropLast
       else toLowerL (trimL s)) = true
  · rw [if_pos hsch]
    exact hsch
  · rw [if_neg hsch]
    right
    unfold startsWithL
    rw [List.isPrefixOf_iff_prefix]
    exact List.prefix_append _ _

lemma mem_scheme_ite {n2 : JStr} {c : Char}
    (hc : c ∈ (if startsWithL ("http://".data) n2 = true ∨
        startsWithL ("https://".data) n2 = true then n2
      else ("https://".data) ++ n2)) :
    c ∈ n2 ∨ c ∈ ("https://".data : JStr) := by
  split at hc
  · exact Or.inl hc
  · rcases List.mem_append.mp hc with h1 | h2
    · exact Or.inr h1
    · exact Or.inl h2

lemma normCore_chars_fixed (s : JStr) : ∀ c ∈ normCore s, jsLowerChar c = c := by
  intro c hc
  have hfix2 : ∀ d, d ∈ (if (toLowerL (trimL s)).getLast? = some '/'
      then (toLowerL (trimL s)).dropLast else toLowerL (trimL s)) → jsLowerChar d = d := by
    intro d hd
    split at hd
    · exact mem_toLowerL_fixed ((List.dropLast_sublist _).subset hd)
    · exact mem_toLowerL_fixed hd
  simp only [normCore] at hc
  rcases mem_scheme_ite hc with h1 | h2
  · exact hfix2 c h1
  · fin_cases h2 <;> decide

lemma normalizeUrl_defined_elim {s y : JStr} (h : normalizeUrl (some s) = some y) :
    urlCtorOk y = true ∧ normCore s = y := by
  simp only [normalizeUrl] at h
  split at h
  · exact absurd h (by simp)
  · split at h
    · rename_i hok
      exact ⟨by rwa [Option.some.inj h] at hok, Option.some.inj h⟩
    · exact absurd h (by simp)

/-! ## C6 — idempotence of the website normalizer -/

/-- C6 (counterexample): the claim "normalize(normalize(x)) == normalize(x)
whenever normalize(x) is defined" is false.  `normalizeUrl` strips exactly
one trailing `/`, so `normalizeUrl("http://a//") = "http://a/"` is
defined, yet normalizing it again strips the remaining slash and yields
the different string `"http://a"`. -/
theorem c6_normalize_not_idempotent :
    normalizeUrl (some ("http://a//".data)) = some ("http://a/".data) ∧
    normalizeUrl (normalizeUrl (some ("http://a//".data))) = some ("http://a".data) ∧
    normalizeUrl (normalizeUrl (some ("http://a//".data))) ≠
      normalizeUrl (some ("http://a//".data)) :=
  ⟨by decide, by decide, by decide⟩

/-- C6 (amended): the website normalizer is idempotent on every input
whose normalized form ends in neither `/` nor a whitespace character:
if `normalize(x) = y` with such a `y`, then `normalize(y) = y`.  (The
two excluded cases are real: one trailing `/` can survive one
normalization pass, and a trailing space exposed by slash-stripping
survives inside the returned string even though `new URL` accepts it.) -/
theorem c6_normalize_idempotent_amended (s y : JStr)
    (h : normalizeUrl (some s) = some y)
    (hslash : y.getLast? ≠ some '/')
    (hws : y.getLast?.all (fun c => !isJsWs c) = true) :
    normalizeUrl (some y) = some y := by
  obtain ⟨hok, hcore⟩ := normalizeUrl_defined_elim h
  have hscheme := normCore_scheme s
  rw [hcore] at hscheme
  have hfix : ∀ c ∈ y, jsLowerChar c = c := by
    have hall := normCore_chars_fixed s
    rwa [hcore] at hall
  have hhead : y.head? = some 'h' := by
    rcases hscheme with h1 | h1
    · exact head?_of_startsWith (by decide) h1
    · exact head?_of_startsWith (by decide) h1
  have hlast : ∀ c, y.getLast? = some c → isJsWs c = false := by
    intro c hc
    rw [hc] at hws
    simpa using hws
  have htrim : trimL y = y := trimL_eq_self
    (by
      intro c hc
      rw [hhead] at hc
      cases Option.some.inj hc
      decide)
    hlast
  have hne : y.isEmpty = false := by
    cases y with
    | nil => simp at hhead
    | cons a t => rfl
  have hlow : toLowerL y = y := toLowerL_eq_self hfix
  have hcorey : normCore y = y := by
    simp only [normCore, htrim, hlow]
    rw [if_neg hslash, if_pos hscheme]
  simp [normalizeUrl, htrim, hne, hcorey, hok]

/-- C6 witness: the amended idempotence theorem applied at the concrete
input `"a.com"`, whose normalization `"https://a.com"` ends in neither
`/` nor whitespace and is a fixed point of the normalizer. -/
theorem c6_normalize_idempotent_amended_witness :
    normalizeUrl (some ("a.com".data)) = some ("https://a.com".data) ∧
    ("https://a.com".data : JStr).getLast? ≠ some '/' ∧
    (("https://a.com".data : JStr).getLast?.all (fun c => !isJsWs c) = true) ∧
    normalizeUrl (some ("https://a.com".data)) = some ("https://a.com".data) :=
  ⟨by decide, by decide, by decide,
   c6_normalize_idempotent_amended ("a.com".data) ("https://a.com".data)
     (by decide) (by decide) (by decide)⟩

/-! ## Lemmas about the enrichment orchestrator -/

lemma processRow_cases (env : EnrichEnv) (row : TableDataRow) :
    ((processRow env row).1 = row ∧ (processRow env row).2 ≠ some RowTally.success) ∨
    (row.processingStatus = ProcessingStatus.ToProcess ∧ row.hasError = false ∧
     (processRow env row).1.processingStatus = ProcessingStatus.Fetched ∧
     (processRow env row).2 = some RowTally.success ∧
     (processRow env row).1.id = row.id ∧
     (processRow env row).1.values = row.values ∧
     (processRow env row).1.hasError = row.hasError) := by
  unfold processRow
  by_cases helig : ¬(row.processingStatus = ProcessingStatus.ToProcess) ∨ row.hasError = true
  · rw [if_pos helig]
    exact Or.inl ⟨rfl, by simp⟩
  · rw [if_neg helig]
    push_neg at helig
    obtain ⟨hst, hhe⟩ := helig
    have hhe2 : row.hasError = false := by simpa using hhe
    repeat' split
    all_goals first
      | exact Or.inl ⟨rfl, by simp⟩
      | exact Or.inr ⟨hst, hhe2, rfl, rfl, rfl, rfl, rfl⟩

lemma processRow_ineligible (env : EnrichEnv) (row : TableDataRow)
    (h : ¬(row.processingStatus = ProcessingStatus.ToProcess ∧ row.hasError = false)) :
    processRow env row = (row, none) := by
  unfold processRow
  rw [if_pos]
  by_cases hst : row.processingStatus = ProcessingStatus.ToProcess
  · right
    rcases hb : row.hasError with _ | _
    · exact absurd ⟨hst, hb⟩ h
    · rfl
  · exact Or.inl hst

lemma processRow_eligible_tally (env : EnrichEnv) (row : TableDataRow)
    (hst : row.processingStatus = ProcessingStatus.ToProcess)
    (hhe : row.hasError = false) :
    (processRow env row).2 = some RowTally.success ∨
    (processRow env row).2 = some RowTally.error := by
  unfold processRow
  rw [if_neg (by simp [hst, hhe])]
  repeat' split
  all_goals simp

lemma enrich_rows_get? (env : EnrichEnv) (rows : List TableDataRow) (i : Nat) :
    (enrich env rows).rows.get? i =
      (rows.get? i).map (fun row => (processRow env row).1) := by
  simp only [enrich, List.map_map, List.get?_map]
  rfl

lemma enrich_rows_length (env : EnrichEnv) (rows : List TableDataRow) :
    (enrich env rows).rows.length = rows.length := by
  simp [enrich]

lemma enrich_counts (env : EnrichEnv) (rows : List TableDataRow) :
    (enrich env rows).successCount + (enrich env rows).errorCount =
      (rows.filter eligibleRow).length := by
  induction rows with
  | nil => rfl
  | cons r t ih =>
    simp only [enrich, List.map_cons, List.filter_cons] at ih ⊢
    by_cases helig : r.processingStatus = ProcessingStatus.ToProcess ∧ r.hasError = false
    · have helig2 : eligibleRow r = true := by
        simp [eligibleRow, helig.1, helig.2]
      rcases processRow_eligible_tally env r helig.1 helig.2 with ht | ht <;>
        · simp [ht, helig2]
          omega
    · have helig2 : eligibleRow r = false := by
        rcases hb : r.hasError with _ | _
        · rcases hs : r.processingStatus with _ | _
          · simp [eligibleRow, hs]
          · exact absurd ⟨hs, hb⟩ helig
        · simp [eligibleRow, hb]
      have hnone : processRow env r = (r, none) := processRow_ineligible env r helig
      simp [hnone, helig2]
      omega

lemma mkTableRow_status (nameIdx websiteIdx : Option Nat)
    (results : List CompanyMatchResult) (index : Nat) (row : List JStr) :
    ((mkTableRow nameIdx websiteIdx results index row).processingStatus =
        ProcessingStatus.Fetched ↔
      ∃ r, jsMapGet results index = some r ∧ r.matched = true) := by
  simp only [mkTableRow]
  cases h : jsMapGet results index with
  | none => simp [h]
  | some r =>
    rcases hm : r.matched with _ | _
    · simp [h, hm]
    · simp [h, hm]

/-! ## C2 — the enrichment orchestrator -/

/-- C2: the orchestrator operates only on rows with status `To Process`
and no error — every other row is returned unchanged (conjunct 1); each
output row is a function of its own input row alone, so one row's
pipeline failure cannot affect a sibling (conjunct 2); the aggregate
counts tally exactly the eligible rows (conjunct 3); and in the concrete
three-eligible-row scenario where the second row's scrape fails, rows 1
and 3 transition to `Fetched` with their summaries, row 2 is returned
unchanged as `To Process`, and the report is successCount=2,
errorCount=1 (conjunct 4). -/
theorem c2_enrichment_orchestrator :
    (∀ (env : EnrichEnv) (rows : List TableDataRow) (i : Nat) (row : TableDataRow),
      rows.get? i = some row →
      ¬(row.processingStatus = ProcessingStatus.ToProcess ∧ row.hasError = false) →
      (enrich env rows).rows.get? i = some row) ∧
    (∀ (env : EnrichEnv) (rows : List TableDataRow) (i : Nat) (row : TableDataRow),
      rows.get? i = some row →
      (enrich env rows).rows.get? i = some (processRow env row).1) ∧
    (∀ (env : EnrichEnv) (rows : List TableDataRow),
      (enrich env rows).successCount + (enrich env rows).errorCount =
        (rows.filter eligibleRow).length) ∧
    ((enrich scenarioEnv scenarioRows).rows =
      [{ sampleRow 0 ("https://one.com".data) with
           summary := some ("a summary".data)
           independenceCriteria := some ("meets criteria".data)
           insufficientInformation := some ("No".data)
           processingStatus := ProcessingStatus.Fetched },
       sampleRow 1 ("https://two.com".data),
       { sampleRow 2 ("https://three.com".data) with
           summary := some ("a summary".data)
           independenceCriteria := some ("meets criteria".data)
           insufficientInformation := some ("No".data)
           processingStatus := ProcessingStatus.Fetched }] ∧
      (enrich scenarioEnv scenarioRows).successCount = 2 ∧
      (enrich scenarioEnv scenarioRows).errorCount = 1) := by
  refine ⟨?_, ?_, enrich_counts, by decide, by decide, by decide⟩
  · intro env rows i row hget hinelig
    rw [enrich_rows_get?, hget]
    simp [processRow_ineligible env row hinelig]
  · intro env rows i row hget
    rw [enrich_rows_get?, hget]
    rfl

/-- C2 witness: the passthrough conjunct applied to a concrete
already-`Fetched` row. -/
theorem c2_enrichment_orchestrator_witness :
    ([{ sampleRow 0 ("https://one.com".data) with
          processingStatus := ProcessingStatus.Fetched }] :
        List TableDataRow).get? 0 =
      some { sampleRow 0 ("https://one.com".data) with
               processingStatus := ProcessingStatus.Fetched } ∧
    ¬({ sampleRow 0 ("https://one.com".data) with
          processingStatus := ProcessingStatus.Fetched }.processingStatus =
            ProcessingStatus.ToProcess ∧
        { sampleRow 0 ("https://one.com".data) with
            processingStatus := ProcessingStatus.Fetched }.hasError = false) ∧
    (enrich scenarioEnv
        [{ sampleRow 0 ("https://one.com".data) with
             processingStatus := ProcessingStatus.Fetched }]).rows.get? 0 =
      some { sampleRow 0 ("https://one.com".data) with
               processingStatus := ProcessingStatus.Fetched } :=
  ⟨by decide, by decide,
   c2_enrichment_orchestrator.1 scenarioEnv _ 0 _ (by decide) (by decide)⟩

/-! ## C4 — persist failure does not revert a row's success -/

/-- C4: for an eligible row whose scrape and summarize calls succeed, the
persist call's outcome is never consulted — in particular when it throws
(`.error e`) the row still transitions to `Fetched` carrying the
summarize result's summary, independenceCriteria and
insufficientInformation, and tallies as a success (counted in
`successCount`, not `errorCount`). -/
theorem c4_persist_failure_keeps_success (env : EnrichEnv) (row : TableDataRow)
    (w content summ e : JStr) (sr : ScrapeResult) (mr : SummarizeResult)
    (hst : row.processingStatus = ProcessingStatus.ToProcess)
    (hhe : row.hasError = false)
    (hw : cellAt row.values env.websiteHeaderIdx = some w)
    (hwne : w.isEmpty = false)
    (hscrape : env.scrape w = .ok sr)
    (hsst : sr.status = "success".data)
    (hsc : sr.content = some content)
    (hcne : content.isEmpty = false)
    (hsumm : env.summarize content = .ok mr)
    (hmst : mr.status = "success".data)
    (hms : mr.summary = some summ)
    (hsne : summ.isEmpty = false)
    (hsave : env.save
      { companyName := cellAt row.values env.companyNameHeaderIdx
        country := cellAt row.values env.countryHeaderIdx
        website := some w
        metadata :=
          { summary := mr.summary
            independenceCriteria := mr.independenceCriteria
            insufficientInformation := mr.insufficientInformation } } = .error e) :
    processRow env row =
      ({ row with
          summary := mr.summary
          independenceCriteria := mr.independenceCriteria
          insufficientInformation := mr.insufficientInformation
          processingStatus := ProcessingStatus.Fetched },
       some RowTally.success) := by
  simp [processRow, hst, hhe, hw, hwne, hscrape, hsst, hsc, hcne, hsumm,
    hmst, hms, hsne]

/-- C4 witness: the theorem applied at a concrete eligible row under the
services whose persist call always throws. -/
theorem c4_persist_failure_keeps_success_witness :
    processRow savingFailsEnv (sampleRow 0 ("https://one.com".data)) =
      ({ sampleRow 0 ("https://one.com".data) with
          summary := some ("a summary".data)
          independenceCriteria := some ("meets criteria".data)
          insufficientInformation := some ("No".data)
          processingStatus := ProcessingStatus.Fetched },
       some RowTally.success) :=
  c4_persist_failure_keeps_success savingFailsEnv
    (sampleRow 0 ("https://one.com".data))
    ("https://one.com".data) ("site content".data) ("a summary".data)
    ("save failed".data)
    { status := "success".data, content := some ("site content".data)
      message := none, reason := none }
    { status := "success".data, summary := some ("a summary".data)
      independenceCriteria := some ("meets criteria".data)
      insufficientInformation := some ("No".data), message := none }
    (by decide) (by decide) (by decide) (by decide) rfl (by decide)
    (by decide) (by decide) rfl (by decide) (by decide) (by decide)
    rfl

/-! ## C5 — status initialization and transitions -/

/-- C5: a row's `processingStatus` is initialized to `Fetched` iff the
reconciliation result recorded for its row index reports `matched=true`
(conjunct 1); the enrichment step never moves a row to `To Process` that
was not already `To Process` — in particular it never regresses
`Fetched → To Process` (conjunct 2); and an eligible `To Process` row
ends up `Fetched` exactly when its pipeline ran to success (conjunct 3). -/
theorem c5_status_lifecycle :
    (∀ (rawHeaders : List JStr) (rawDataRows : List (List JStr))
        (detectedHeaders : DetectHeadersOutput)
        (results : List CompanyMatchResult)
        (core : ProcessedCore) (i : Nat) (row : TableDataRow),
      processFileCore rawHeaders rawDataRows detectedHeaders (.ok results) = .ok core →
      core.tableData.get? i = some row →
      (row.processingStatus = ProcessingStatus.Fetched ↔
        ∃ r, jsMapGet results i = some r ∧ r.matched = true)) ∧
    (∀ (env : EnrichEnv) (row : TableDataRow),
      (processRow env row).1.processingStatus = ProcessingStatus.ToProcess →
      row.processingStatus = ProcessingStatus.ToProcess) ∧
    (∀ (env : EnrichEnv) (row : TableDataRow),
      row.processingStatus = ProcessingStatus.ToProcess →
      ((processRow env row).1.processingStatus = ProcessingStatus.Fetched ↔
        (processRow env row).2 = some RowTally.success)) := by
  refine ⟨?_, ?_, ?_⟩
  · intro rawHeaders rawDataRows detectedHeaders results core i row hok hrow
    unfold processFileCore at hok
    split at hok
    · exact absurd hok (by simp)
    · rw [Except.ok.injEq] at hok
      subst hok
      simp only [mapIdxL_get?, Nat.zero_add] at hrow
      cases hr0 : rawDataRows.get? i with
      | none => rw [hr0] at hrow; exact absurd hrow (by simp)
      | some r0 =>
        rw [hr0] at hrow
        have hnonempty : rawDataRows ≠ [] := by
          intro hnil
          rw [hnil] at hr0
          exact absurd hr0 (by simp)
        have hlen : 0 < (extractCompanies
            (headerIdx rawHeaders detectedHeaders.companyName)
            (headerIdx rawHeaders detectedHeaders.country)
            (headerIdx rawHeaders detectedHeaders.website) rawDataRows).length := by
          unfold extractCompanies
          rw [mapIdxL_length]
          exact List.length_pos.mpr hnonempty
        rw [if_pos hlen] at hrow
        replace hrow := Option.some.inj hrow
        rw [← hrow]
        exact mkTableRow_status _ _ results i r0
  · intro env row h
    rcases processRow_cases env row with ⟨heq, _⟩ | ⟨hst, _, _, _, _, _, _⟩
    · rwa [heq] at h
    · exact hst
  · intro env row hst
    constructor
    · intro hf
      rcases processRow_cases env row with ⟨heq, _⟩ | ⟨_, _, _, htl, _, _, _⟩
      · rw [heq] at hf
        exact absurd (hst.symm.trans hf) (by decide)
      · exact htl
    · intro htl
      rcases processRow_cases env row with ⟨_, hne⟩ | ⟨_, _, hf, _, _, _, _⟩
      · exact absurd htl hne
      · exact hf

/-- C5 witness: conjunct 3 applied to a concrete eligible row under the
scenario services (where its pipeline succeeds). -/
theorem c5_status_lifecycle_witness :
    (sampleRow 0 ("https://one.com".data)).processingStatus =
      ProcessingStatus.ToProcess ∧
    ((processRow scenarioEnv (sampleRow 0 ("https://one.com".data))).1.processingStatus =
        ProcessingStatus.Fetched ↔
      (processRow scenarioEnv (sampleRow 0 ("https://one.com".data))).2 =
        some RowTally.success) :=
  ⟨by decide, c5_status_lifecycle.2.2 scenarioEnv _ (by decide)⟩

/-! ## C7 — blank and whitespace-only cells in row extraction -/

/-- C7 (counterexample): the claim "a blank or whitespace-only cell
yields an absent field (undefined), not an empty string" is false for
whitespace-only cells: `" "` is truthy in JS, so the extractor returns
`String(cell).trim()`, the present empty string `some ""`, not `none`. -/
theorem c7_whitespace_cell_not_absent :
    (extractCompanies (some 0) none none [[" ".data]]) =
      [{ originalIndex := 0, companyName := some []
         country := none, website := none }] ∧
    (some ([] : JStr) ≠ (none : Option JStr)) :=
  ⟨by decide, by decide⟩

/-- C7 (amended): during row extraction a blank (empty-string) cell
yields an absent field, while a whitespace-only nonempty cell yields the
present empty-string value `some ""` (which downstream code treats as
absent through JS falsiness). -/
theorem c7_blank_cell_amended (row : List JStr) (i : Nat) (c : JStr)
    (hcell : row.get? i = some c) (hblank : trimL c = []) :
    extractField row (some i) = if c.isEmpty then none else some [] := by
  simp only [extractField, hcell]
  split
  · rfl
  · rw [hblank]

/-- C7 witness: the amended theorem applied to a whitespace-only cell. -/
theorem c7_blank_cell_amended_witness :
    ([" ".data] : List JStr).get? 0 = some (" ".data) ∧
    trimL (" ".data) = [] ∧
    extractField [" ".data] (some 0) =
      if (" ".data : JStr).isEmpty then none else some [] :=
  ⟨by decide, by decide, c7_blank_cell_amended [" ".data] 0 (" ".data)
    (by decide) (by decide)⟩

/-! ## C10 — frame property of the enrichment orchestrator -/

/-- C10: the orchestrator preserves the table's length and order, and for
every input row the corresponding output row keeps the same `id`,
`values` and `hasError` — only `processingStatus`, `summary`,
`independenceCriteria` and `insufficientInformation` can change. -/
theorem c10_enrich_frame :
    (∀ (env : EnrichEnv) (rows : List TableDataRow),
      (enrich env rows).rows.length = rows.length) ∧
    (∀ (env : EnrichEnv) (rows : List TableDataRow) (i : Nat) (row : TableDataRow),
      rows.get? i = some row →
      ∃ out, (enrich env rows).rows.get? i = some out ∧
        out.id = row.id ∧ out.values = row.values ∧
        out.hasError = row.hasError) := by
  refine ⟨enrich_rows_length, ?_⟩
  intro env rows i row hget
  have hout : (enrich env rows).rows.get? i = some (processRow env row).1 := by
    rw [enrich_rows_get?, hget]
    rfl
  rcases processRow_cases env row with ⟨heq, _⟩ | ⟨_, _, _, _, hid, hval, hhe⟩
  · exact ⟨(processRow env row).1, hout, by rw [heq], by rw [heq], by rw [heq]⟩
  · exact ⟨(processRow env row).1, hout, hid, hval, hhe⟩

/-- C10 witness: the frame conjunct applied in the concrete scenario to
the row whose scrape fails. -/
theorem c10_enrich_frame_witness :
    scenarioRows.get? 1 = some (sampleRow 1 ("https://two.com".data)) ∧
    ∃ out, (enrich scenarioEnv scenarioRows).rows.get? 1 = some out ∧
      out.id = (sampleRow 1 ("https://two.com".data)).id ∧
      out.values = (sampleRow 1 ("https://two.com".data)).values ∧
      out.hasError = (sampleRow 1 ("https://two.com".data)).hasError :=
  ⟨by decide, c10_enrich_frame.2 scenarioEnv scenarioRows 1 _ (by decide)⟩

/-! ## C3 — whole-batch reconciliation failure degrades gracefully -/

lemma status_toProcess_of_no_match (nameIdx websiteIdx : Option Nat)
    (results : List CompanyMatchResult) (index : Nat) (row : List JStr)
    (h : ∀ r ∈ results, r.matched = false) :
    (mkTableRow nameIdx websiteIdx results index row).processingStatus =
      ProcessingStatus.ToProcess := by
  rcases hst : (mkTableRow nameIdx websiteIdx results index row).processingStatus with _ | _
  · exfalso
    obtain ⟨r, hr1, hr2⟩ := (mkTableRow_status nameIdx websiteIdx results index row).mp hst
    have hmem : r ∈ results := by
      unfold jsMapGet at hr1
      exact List.mem_reverse.mp (List.mem_of_find?_eq_some hr1)
    rw [h r hmem] at hr2
    cases hr2
  · rfl

/-- C3: if the batched reconciliation call throws, `processFile` does not
fail: it produces a full table (one row per data row) in which every row
is `To Process` (every identity treated as `matched=false`), and the
warning toast is emitted exactly once for the whole batch. -/
theorem c3_reconcile_degradation (rawHeaders : List JStr)
    (rawDataRows : List (List JStr))
    (detectedHeaders : DetectHeadersOutput) (e : JStr)
    (hh : rawHeaders ≠ []) (hr : rawDataRows ≠ []) :
    ∃ core,
      processFileCore rawHeaders rawDataRows detectedHeaders (.error e) = .ok core ∧
      core.warnings = 1 ∧
      core.tableData.length = rawDataRows.length ∧
      ∀ row ∈ core.tableData,
        row.processingStatus = ProcessingStatus.ToProcess := by
  have hlen : 0 < (extractCompanies
      (headerIdx rawHeaders detectedHeaders.companyName)
      (headerIdx rawHeaders detectedHeaders.country)
      (headerIdx rawHeaders detectedHeaders.website) rawDataRows).length := by
    unfold extractCompanies
    rw [mapIdxL_length]
    exact List.length_pos.mpr hr
  simp only [processFileCore]
  rw [if_neg (by simp only [List.isEmpty_iff]; exact hh)]
  rw [if_pos hlen]
  refine ⟨_, rfl, rfl, by rw [mapIdxL_length], ?_⟩
  intro row hmem
  obtain ⟨i, hi⟩ := List.mem_iff_get?.mp hmem
  rw [mapIdxL_get?, Nat.zero_add] at hi
  cases hr0 : rawDataRows.get? i with
  | none => rw [hr0] at hi; exact absurd hi (by simp)
  | some r0 =>
    rw [hr0] at hi
    replace hi := Option.some.inj hi
    rw [← hi]
    apply status_toProcess_of_no_match
    intro r hrmem
    obtain ⟨c, _, rfl⟩ := List.mem_map.mp hrmem
    rfl

/-- C3 witness: the theorem applied to a concrete one-column,
one-row file whose reconciliation call throws. -/
theorem c3_reconcile_degradation_witness :
    ∃ core,
      processFileCore ["Name".data] [["Acme".data]]
        { companyName := "Name".data, country := [], website := [] }
        (.error ("network down".data)) = .ok core ∧
      core.warnings = 1 ∧
      core.tableData.length = [["Acme".data]].length ∧
      ∀ row ∈ core.tableData,
        row.processingStatus = ProcessingStatus.ToProcess :=
  c3_reconcile_degradation ["Name".data] [["Acme".data]]
    { companyName := "Name".data, country := [], website := [] }
    ("network down".data) (by decide) (by decide)

/-! ## C9 — export projection -/

lemma mapIdxL_isEmpty (f : Nat → α → β) (n : Nat) (l : List α) :
    (mapIdxL f n l).isEmpty = l.isEmpty := by
  cases l <;> rfl

/-- C9: the export projection produces exactly one record per row with
`hasError = false` (rows with errors are silently excluded); the
sequence number is 1-based and recomputed after filtering (position in
the filtered list, not the original row index); absent header columns
and missing optional fields render as the empty string (`exportCell` of
an absent index and `orEmptyStr` of an absent value are `""`); and an
empty filtered set short-circuits to the nothing-to-export outcome — no
output records and no error. -/
theorem c9_export_projection :
    (∀ (originalHeaders : List JStr) (mappedHeaders : DetectHeadersOutput)
        (tableData : List TableDataRow),
      (tableData.filter (fun row => !row.hasError)).isEmpty = true →
      handleExportResults originalHeaders mappedHeaders tableData =
        ExportOutcome.nothingToExport) ∧
    (∀ (originalHeaders : List JStr) (mappedHeaders : DetectHeadersOutput)
        (tableData : List TableDataRow),
      (tableData.filter (fun row => !row.hasError)).isEmpty = false →
      ∃ records,
        handleExportResults originalHeaders mappedHeaders tableData =
          ExportOutcome.exported records ∧
        records.length = (tableData.filter (fun row => !row.hasError)).length ∧
        (∀ k row,
          (tableData.filter (fun row => !row.hasError)).get? k = some row →
          records.get? k = some
            { sNo := k + 1
              companyName := exportCell row.values
                (headerIdx originalHeaders mappedHeaders.companyName)
              country := exportCell row.values
                (headerIdx originalHeaders mappedHeaders.country)
              website := exportCell row.values
                (headerIdx originalHeaders mappedHeaders.website)
              overview := orEmptyStr row.summary
              independenceCriteria := orEmptyStr row.independenceCriteria
              insufficientInformation := orEmptyStr row.insufficientInformation })) ∧
    (∀ values : List JStr, exportCell values none = []) ∧
    (orEmptyStr none = []) := by
  refine ⟨?_, ?_, fun _ => rfl, rfl⟩
  · intro originalHeaders mappedHeaders tableData hempty
    simp only [handleExportResults]
    rw [if_pos]
    rw [mapIdxL_isEmpty]
    exact hempty
  · intro originalHeaders mappedHeaders tableData hnonempty
    simp only [handleExportResults]
    rw [if_neg (by rw [mapIdxL_isEmpty, hnonempty]; exact Bool.false_ne_true)]
    refine ⟨_, rfl, by rw [mapIdxL_length], ?_⟩
    intro k row hk
    rw [mapIdxL_get?, Nat.zero_add, hk]
    rfl

/-- C9 witness: the nothing-to-export conjunct applied to an empty table,
and the empty-rendering conjunct at a concrete cell list. -/
theorem c9_export_projection_witness :
    (([] : List TableDataRow).filter (fun row => !row.hasError)).isEmpty = true ∧
    handleExportResults [] { companyName := [], country := [], website := [] }
        [] = ExportOutcome.nothingToExport :=
  ⟨by decide,
   c9_export_projection.1 [] { companyName := [], country := [], website := [] }
     [] (by decide)⟩

/-! ## C8 — display values and website-cell replacement -/

/-- C8 (counterexample): the claim "the website cell is replaced by its
normalized form whenever normalization changed the raw cell value" is
false.  For the raw cell `"HTTP://A"` normalization yields the different
string `"http://a"`, yet the display row keeps the raw cell: the code
compares the normalized form against the trimmed lowercased raw cell
(`"http://a"`, equal), not against the raw cell itself. -/
theorem c8_website_cell_not_replaced :
    normalizeUrl (extractField ["HTTP://A".data] (some 0)) = some ("http://a".data) ∧
    ("http://a".data : JStr) ≠ "HTTP://A".data ∧
    (mkTableRow none (some 0) [] 0 ["HTTP://A".data]).values = ["HTTP://A".data] :=
  ⟨by decide, by decide, by decide⟩

/-- C8 (amended): the display values keep one entry per cell of the raw
row; every non-website cell keeps its original value; the website cell is
replaced by the (nonempty) normalized form exactly when that form differs
from the trimmed, lowercased raw cell; and when normalization is
undefined the row is left untouched. -/
theorem c8_display_values_amended (nameIdx : Option Nat) (wi : Nat)
    (results : List CompanyMatchResult) (index : Nat) (row : List JStr) :
    ((mkTableRow nameIdx (some wi) results index row).values.length = row.length) ∧
    (∀ j, j ≠ wi →
      (mkTableRow nameIdx (some wi) results index row).values.get? j = row.get? j) ∧
    (∀ nw, normalizeUrl (extractField row (some wi)) = some nw →
      nw.isEmpty = false →
      ∀ cell, row.get? wi = some cell →
      (mkTableRow nameIdx (some wi) results index row).values.get? wi =
        some (if nw = toLowerL (trimL cell) then cell else nw)) ∧
    (normalizeUrl (extractField row (some wi)) = none →
      (mkTableRow nameIdx (some wi) results index row).values = row) := by
  refine ⟨?_, ?_, ?_, ?_⟩
  · simp only [mkTableRow]
    repeat' split
    all_goals first
      | exact List.length_set row wi _
      | rfl
  · intro j hj
    simp only [mkTableRow]
    repeat' split
    all_goals first
      | exact List.get?_set_ne _ row (Ne.symm hj)
      | rfl
  · intro nw hnw hne cell hcell
    simp only [mkTableRow, hnw, jsStringOfCell, hcell]
    by_cases hcond : nw = toLowerL (trimL cell)
    · rw [if_neg (by simp [hcond]), if_pos hcond, hcell]
    · rw [if_pos ⟨by simp [hne], by simpa [hcell, jsStringOfCell] using hcond⟩,
        if_neg hcond]
      rw [List.get?_set_eq, hcell]
      rfl
  · intro hnone
    simp only [mkTableRow, hnone]

/-- C8 witness: the amended characterization applied to a concrete row
whose website cell `"Acme.com/"` is replaced by `"https://acme.com"`. -/
theorem c8_display_values_amended_witness :
    normalizeUrl (extractField ["Acme.com/".data] (some 0)) =
      some ("https://acme.com".data) ∧
    ("https://acme.com".data : JStr).isEmpty = false ∧
    (["Acme.com/".data] : List JStr).get? 0 = some ("Acme.com/".data) ∧
    (mkTableRow none (some 0) [] 0 ["Acme.com/".data]).values.get? 0 =
      some (if ("https://acme.com".data : JStr) =
          toLowerL (trimL ("Acme.com/".data)) then "Acme.com/".data
        else "https://acme.com".data) :=
  ⟨by decide, by decide, by decide,
   (c8_display_values_amended none 0 [] 0 ["Acme.com/".data]).2.2.1
     ("https://acme.com".data) (by decide) (by decide) ("Acme.com/".data)
     (by decide)⟩

/-! ## C1 — the remote matching rule -/

lemma mem_insertById {acc : List StoredCompany} {r x : StoredCompany}
    (h : x ∈ acc) : x ∈ insertById acc r := by
  unfold insertById
  split
  · exact h
  · exact List.mem_append_left _ h

lemma mem_insertById_elim {acc : List StoredCompany} {r x : StoredCompany}
    (h : x ∈ insertById acc r) : x ∈ acc ∨ x = r := by
  unfold insertById at h
  split at h
  · exact Or.inl h
  · rcases List.mem_append.mp h with h1 | h2
    · exact Or.inl h1
    · exact Or.inr (List.mem_singleton.mp h2)

lemma mem_foldl_insertById_elim {l acc : List StoredCompany} {x : StoredCompany}
    (h : x ∈ l.foldl insertById acc) : x ∈ acc ∨ x ∈ l := by
  induction l generalizing acc with
  | nil => exact Or.inl h
  | cons a t ih =>
    simp only [List.foldl_cons] at h
    rcases ih h with h1 | h2
    · rcases mem_insertById_elim h1 with h3 | h4
      · exact Or.inl h3
      · exact Or.inr (h4 ▸ List.mem_cons_self a t)
    · exact Or.inr (List.mem_cons_of_mem a h2)

lemma mem_foldl_insertById_mono {l acc : List StoredCompany} {x : StoredCompany}
    (h : x ∈ acc) : x ∈ l.foldl insertById acc := by
  induction l generalizing acc with
  | nil => exact h
  | cons a t ih =>
    simp only [List.foldl_cons]
    exact ih (mem_insertById h)

lemma docId_unique {db : List StoredCompany}
    (hids : db.Pairwise (fun a b => a.docId ≠ b.docId))
    {x y : StoredCompany} (hx : x ∈ db) (hy : y ∈ db)
    (hid : x.docId = y.docId) : x = y := by
  have hsymm : Symmetric (fun a b : StoredCompany => a.docId ≠ b.docId) := by
    intro a b hab heq
    exact hab heq.symm
  by_contra hne
  exact List.Pairwise.forall hsymm hids hx hy hne hid

lemma mem_foldl_insertById_complete {db : List StoredCompany}
    (hids : db.Pairwise (fun a b => a.docId ≠ b.docId))
    {l acc : List StoredCompany} {x : StoredCompany}
    (hacc : ∀ y ∈ acc, y ∈ db) (hl : ∀ y ∈ l, y ∈ db) (hx : x ∈ l) :
    x ∈ l.foldl insertById acc := by
  induction l generalizing acc with
  | nil => cases hx
  | cons a t ih =>
    simp only [List.foldl_cons]
    have hacc2 : ∀ y ∈ insertById acc a, y ∈ db := by
      intro y hy
      rcases mem_insertById_elim hy with h1 | h2
      · exact hacc y h1
      · exact h2 ▸ hl a (List.mem_cons_self a t)
    rcases List.mem_cons.mp hx with rfl | hx2
    · apply mem_foldl_insertById_mono
      unfold insertById
      split
      · rename_i hdup
        obtain ⟨y, hy, hyid⟩ := List.any_eq_true.mp hdup
        have hyx : y = x := docId_unique hids (hacc y hy)
          (hl x (List.mem_cons_self x t)) (of_decide_eq_true hyid)
        exact hyx ▸ hy
      · exact List.mem_append_right _ (List.mem_singleton.mpr rfl)
    · exact ih hacc2 (fun y hy => hl y (List.mem_cons_of_mem a hy)) hx2

lemma mem_collectCandidates_iff {queries : List (List StoredCompany)}
    {db : List StoredCompany}
    (hids : db.Pairwise (fun a b => a.docId ≠ b.docId))
    (hq : ∀ q ∈ queries, ∀ x ∈ q, x ∈ db) (x : StoredCompany) :
    x ∈ collectCandidates queries ↔ ∃ q ∈ queries, x ∈ q := by
  unfold collectCandidates
  constructor
  · intro h
    rcases mem_foldl_insertById_elim h with h1 | h2
    · cases h1
    · exact List.mem_flatten.mp h2
  · intro hex
    obtain ⟨q, hqm, hxq⟩ := hex
    exact mem_foldl_insertById_complete hids
      (fun y hy => absurd hy (List.not_mem_nil y))
      (fun y hy => by
        obtain ⟨q2, hq2, hyq2⟩ := List.mem_flatten.mp hy
        exact hq q2 hq2 y hyq2)
      (List.mem_flatten.mpr ⟨q, hqm, hxq⟩)

lemma matchCount_zero {nn nc nw : Option JStr} (r : StoredCompany)
    (h1 : jsTruthy nn = false) (h2 : jsTruthy nc = false)
    (h3 : jsTruthy nw = false) :
    matchCount nn nc nw r = 0 := by
  unfold matchCount
  rw [if_neg (by simp [h1]), if_neg (by simp [h2]), if_neg (by simp [h3])]

lemma matchCount_pos_elim {nn nc nw : Option JStr} {r : StoredCompany}
    (h : 1 ≤ matchCount nn nc nw r) :
    (jsTruthy nn = true ∧ r.normalizedCompanyName = nn) ∨
    (jsTruthy nc = true ∧ r.normalizedCountry = nc) ∨
    (jsTruthy nw = true ∧ r.website = nw) := by
  unfold matchCount at h
  by_cases c1 : jsTruthy nn = true ∧ r.normalizedCompanyName = nn
  · exact Or.inl c1
  by_cases c2 : jsTruthy nc = true ∧ r.normalizedCountry = nc
  · exact Or.inr (Or.inl c2)
  by_cases c3 : jsTruthy nw = true ∧ r.website = nw
  · exact Or.inr (Or.inr c3)
  rw [if_neg c1, if_neg c2, if_neg c3] at h
  omega

lemma checkOneCompany_originalIndex (db : List StoredCompany)
    (sixMonthsAgo : Int) (c : CompanyInput) :
    (checkOneCompany db sixMonthsAgo c).originalIndex = c.originalIndex := by
  simp only [checkOneCompany]
  repeat' split
  all_goals rfl

lemma mem_cond_singleton {b : Prop} [Decidable b] {l q : List StoredCompany}
    (h : q ∈ (if b then [l] else ([] : List (List StoredCompany)))) : q = l := by
  split at h
  · exact List.mem_singleton.mp h
  · exact absurd h (List.not_mem_nil q)

lemma find_candidates_iff (db : List StoredCompany) (t : Int) (nn nc nw : Option JStr)
    (hids : db.Pairwise (fun a b => a.docId ≠ b.docId)) :
    ((List.find? (fun r => decide (2 ≤ matchCount nn nc nw r))
      (collectCandidates
        ((if jsTruthy nn = true then
            [db.filter (fun r => decide (r.normalizedCompanyName = nn ∧ t ≤ r.timestamp))]
          else []) ++
         (if jsTruthy nc = true then
            [db.filter (fun r => decide (r.normalizedCountry = nc ∧ t ≤ r.timestamp))]
          else []) ++
         (if jsTruthy nw = true then
            [db.filter (fun r => decide (r.website = nw ∧ t ≤ r.timestamp))]
          else [])))).isSome = true
     ↔ ∃ r ∈ db, t ≤ r.timestamp ∧ 2 ≤ matchCount nn nc nw r) := by
  have hQmem : ∀ q ∈
      ((if jsTruthy nn = true then
          [db.filter (fun r => decide (r.normalizedCompanyName = nn ∧ t ≤ r.timestamp))]
        else []) ++
       (if jsTruthy nc = true then
          [db.filter (fun r => decide (r.normalizedCountry = nc ∧ t ≤ r.timestamp))]
        else []) ++
       (if jsTruthy nw = true then
          [db.filter (fun r => decide (r.website = nw ∧ t ≤ r.timestamp))]
        else [])), ∀ x ∈ q, x ∈ db ∧ t ≤ x.timestamp := by
    intro q hqm x hx
    have hq3 : q = db.filter (fun r => decide (r.normalizedCompanyName = nn ∧ t ≤ r.timestamp)) ∨
        q = db.filter (fun r => decide (r.normalizedCountry = nc ∧ t ≤ r.timestamp)) ∨
        q = db.filter (fun r => decide (r.website = nw ∧ t ≤ r.timestamp)) := by
      rcases List.mem_append.mp hqm with h12 | h3
      · rcases List.mem_append.mp h12 with h1 | h2
        · exact Or.inl (mem_cond_singleton h1)
        · exact Or.inr (Or.inl (mem_cond_singleton h2))
      · exact Or.inr (Or.inr (mem_cond_singleton h3))
    rcases hq3 with rfl | rfl | rfl
    · obtain ⟨hdb, hp2⟩ := List.mem_filter.mp hx
      exact ⟨hdb, (of_decide_eq_true hp2).2⟩
    · obtain ⟨hdb, hp2⟩ := List.mem_filter.mp hx
      exact ⟨hdb, (of_decide_eq_true hp2).2⟩
    · obtain ⟨hdb, hp2⟩ := List.mem_filter.mp hx
      exact ⟨hdb, (of_decide_eq_true hp2).2⟩
  constructor
  · intro hsome
    obtain ⟨r, hrc, hp⟩ := List.find?_isSome.mp hsome
    obtain ⟨q, hqm, hxq⟩ :=
      (mem_collectCandidates_iff hids (fun q hq x hx => (hQmem q hq x hx).1) r).mp hrc
    obtain ⟨hdb, hts⟩ := hQmem q hqm r hxq
    exact ⟨r, hdb, hts, of_decide_eq_true hp⟩
  · intro hex
    obtain ⟨r, hrdb, hts, hcnt⟩ := hex
    have h1le : 1 ≤ matchCount nn nc nw r := by omega
    have hrq : ∃ q ∈
        ((if jsTruthy nn = true then
            [db.filter (fun r => decide (r.normalizedCompanyName = nn ∧ t ≤ r.timestamp))]
          else []) ++
         (if jsTruthy nc = true then
            [db.filter (fun r => decide (r.normalizedCountry = nc ∧ t ≤ r.timestamp))]
          else []) ++
         (if jsTruthy nw = true then
            [db.filter (fun r => decide (r.website = nw ∧ t ≤ r.timestamp))]
          else [])), r ∈ q := by
      rcases matchCount_pos_elim h1le with ⟨htn, heq⟩ | ⟨htc, heq⟩ | ⟨htw, heq⟩
      · refine ⟨db.filter (fun r => decide (r.normalizedCompanyName = nn ∧ t ≤ r.timestamp)), ?_, ?_⟩
        · refine List.mem_append.mpr (Or.inl (List.mem_append.mpr (Or.inl ?_)))
          rw [if_pos htn]
          exact List.mem_singleton.mpr rfl
        · exact List.mem_filter.mpr ⟨hrdb, decide_eq_true ⟨heq, hts⟩⟩
      · refine ⟨db.filter (fun r => decide (r.normalizedCountry = nc ∧ t ≤ r.timestamp)), ?_, ?_⟩
        · refine List.mem_append.mpr (Or.inl (List.mem_append.mpr (Or.inr ?_)))
          rw [if_pos htc]
          exact List.mem_singleton.mpr rfl
        · exact List.mem_filter.mpr ⟨hrdb, decide_eq_true ⟨heq, hts⟩⟩
      · refine ⟨db.filter (fun r => decide (r.website = nw ∧ t ≤ r.timestamp)), ?_, ?_⟩
        · refine List.mem_append.mpr (Or.inr ?_)
          rw [if_pos htw]
          exact List.mem_singleton.mpr rfl
        · exact List.mem_filter.mpr ⟨hrdb, decide_eq_true ⟨heq, hts⟩⟩
    obtain ⟨q, hqm, hrq2⟩ := hrq
    exact List.find?_isSome.mpr
      ⟨r, (mem_collectCandidates_iff hids (fun q hq x hx => (hQmem q hq x hx).1) r).mpr
        ⟨q, hqm, hrq2⟩, decide_eq_true hcnt⟩

lemma checkOneCompany_matched_iff (db : List StoredCompany) (sixMonthsAgo : Int)
    (c : CompanyInput)
    (hids : db.Pairwise (fun a b => a.docId ≠ b.docId)) :
    ((checkOneCompany db sixMonthsAgo c).matched = true ↔
      ∃ r ∈ db, sixMonthsAgo ≤ r.timestamp ∧
        2 ≤ matchCount (normNameOf c) (normCountryOf c) (normWebsiteOf c) r) := by
  simp only [checkOneCompany]
  by_cases hall : ¬ jsTruthy (normNameOf c) = true ∧
      ¬ jsTruthy (normCountryOf c) = true ∧ ¬ jsTruthy (normWebsiteOf c) = true
  · rw [if_pos hall]
    constructor
    · intro hfalse
      simp at hfalse
    · intro hex
      obtain ⟨r, hrdb, hts, hcnt⟩ := hex
      rw [matchCount_zero r (by simpa using hall.1) (by simpa using hall.2.1)
        (by simpa using hall.2.2)] at hcnt
      omega
  · rw [if_neg hall]
    have htri : jsTruthy (normNameOf c) = true ∨ jsTruthy (normCountryOf c) = true ∨
        jsTruthy (normWebsiteOf c) = true := by
      by_contra hcon
      push_neg at hcon
      exact hall ⟨fun hh => absurd hh hcon.1, fun hh => absurd hh hcon.2.1,
        fun hh => absurd hh hcon.2.2⟩
    rw [if_neg (by
      rcases htri with h | h | h <;>
        simp [h, List.isEmpty_iff, List.append_eq_nil])]
    exact find_candidates_iff db sixMonthsAgo (normNameOf c) (normCountryOf c)
      (normWebsiteOf c) hids

/-- C1: for every company identity in a reconciliation batch,
`checkForExistingCompanies` produces its result (in batch position, with
the identity's `originalIndex`) with `matched=true` if and only if some
persisted record created no earlier than the six-months-ago cutoff
agrees, after case-normalization, on at least 2 of the 3 query fields
that are present and usable (`matchCount` counts exactly the usable-and-
equal fields); in particular a query with no usable field yields
`matched=false`.  Document ids in the store are assumed distinct, as
Firestore guarantees. -/
theorem c1_match_rule (db : List StoredCompany) (sixMonthsAgo : Int)
    (companies : List CompanyInput) (i : Nat) (c : CompanyInput)
    (hids : db.Pairwise (fun a b => a.docId ≠ b.docId))
    (hc : companies.get? i = some c) :
    ∃ out, (checkForExistingCompanies db sixMonthsAgo companies).get? i = some out ∧
      out.originalIndex = c.originalIndex ∧
      (out.matched = true ↔ ∃ r ∈ db, sixMonthsAgo ≤ r.timestamp ∧
        2 ≤ matchCount (normNameOf c) (normCountryOf c) (normWebsiteOf c) r) ∧
      (jsTruthy (normNameOf c) = false → jsTruthy (normCountryOf c) = false →
        jsTruthy (normWebsiteOf c) = false → out.matched = false) := by
  refine ⟨checkOneCompany db sixMonthsAgo c, ?_,
    checkOneCompany_originalIndex db sixMonthsAgo c,
    checkOneCompany_matched_iff db sixMonthsAgo c hids, ?_⟩
  · unfold checkForExistingCompanies
    rw [List.get?_map, hc]
    rfl
  · intro h1 h2 h3
    rcases hm : (checkOneCompany db sixMonthsAgo c).matched with _ | _
    · rfl
    · exfalso
      obtain ⟨r, _, _, hcnt⟩ :=
        (checkOneCompany_matched_iff db sixMonthsAgo c hids).mp hm
      rw [matchCount_zero r h1 h2 h3] at hcnt
      omega

/-- C1 witness: the matching rule applied to the spec's example — the
query Acme/US/https://acme.com against a store holding a recent
acme/us record with a different website (a 2-of-3 match). -/
theorem c1_match_rule_witness :
    acmeDb.Pairwise (fun a b => a.docId ≠ b.docId) ∧
    ([acmeQuery].get? 0 = some acmeQuery) ∧
    ∃ out, (checkForExistingCompanies acmeDb 0 [acmeQuery]).get? 0 = some out ∧
      out.originalIndex = acmeQuery.originalIndex ∧
      (out.matched = true ↔ ∃ r ∈ acmeDb, (0 : Int) ≤ r.timestamp ∧
        2 ≤ matchCount (normNameOf acmeQuery) (normCountryOf acmeQuery)
          (normWebsiteOf acmeQuery) r) ∧
      (jsTruthy (normNameOf acmeQuery) = false →
        jsTruthy (normCountryOf acmeQuery) = false →
        jsTruthy (normWebsiteOf acmeQuery) = false → out.matched = false) :=
  ⟨by decide, by decide,
   c1_match_rule acmeDb 0 [acmeQuery] 0 acmeQuery (by decide) (by decide)⟩

end Overviewer
